import Mathlib

/-!
Verification of the StemLab core against its specification.

Shallow embedding of the relevant parts of the source:
* `IIR._from_double` / `IIR._to_double` (fixed-point codec, iir.py)
* `MonitorClient._reads` / `MonitorClient.try_n_times` (wire client, stemlab_client.py)
* `IirFloatListProperty` / `IirComplexListProperty` element normalization (iir.py)
* `IirListProperty.set_value` / `get_value` (master/slave pole-zero lists, iir.py)
* `IirFloatListProperty.list_changed` (selection arbitration, iir.py)
* `Module.owner` setter and `DoSetup` (ownership and setup lifecycle, modules.py)
* `IIR.coefficients` setter (coefficient programming, iir.py)

Real numbers of the Python code (float64) are idealized as rationals `ℚ`;
Python's arbitrary-precision integers are `ℤ`/`ℕ` with explicit masking.
-/

namespace StemLab

/-! ### Fixed-point codec (`IIR._from_double`, `IIR._to_double`)

`np.round` rounds half to even (banker's rounding); `int()` of the resulting
integral float is exact in the idealization.  `roundHalfEven` embeds it. -/

/-- Rounding half to even, the behavior of `np.round` used by `_from_double`. -/
def roundHalfEven (x : ℚ) : ℤ :=
  let f := ⌊x⌋
  let frac := x - (f : ℚ)
  if frac < 1/2 then f
  else if 1/2 < frac then f + 1
  else if f % 2 = 0 then f else f + 1

/-- Rounding half away from zero, the rounding mode the spec claims for the
encoder (only used to compare against the source's actual rounding). -/
def roundHalfAway (x : ℚ) : ℤ :=
  if 0 ≤ x then ⌊x + 1/2⌋ else ⌈x - 1/2⌉

/-- Embedding of `IIR._from_double` (iir.py lines 265-270):
`v = int(np.round(v * 2**shift)); v = v & (2**bitlength - 1);
hi = (v >> 32) & 0xFFFFFFFF; lo = v & 0xFFFFFFFF`.
Python's `&` of a (possibly negative) int with the mask `2**bitlength - 1`
equals the Euclidean remainder modulo `2^bitlength`. -/
def from_double (v : ℚ) (bitlength shift : ℕ) : ℕ × ℕ :=
  let r : ℤ := roundHalfEven (v * 2 ^ shift)
  let m : ℕ := (r % (2 ^ bitlength : ℤ)).toNat
  ((m >>> 32) &&& (2 ^ 32 - 1), m &&& (2 ^ 32 - 1))

/-- Embedding of `IIR._to_double` (iir.py lines 272-279):
`hi = int(hi) & ((1 << (bitlength - 32)) - 1); lo = int(lo) & ((1 << 32) - 1);
v = (hi << 32) + lo; if v >> (bitlength - 1) != 0: v = v - 2**bitlength;
v = np.float64(v) / 2**shift`.
For `bitlength < 32` Python's `1 << (bitlength - 32)` raises
`ValueError: negative shift count`; that failure is embedded as `none`. -/
def to_double (hi lo : ℕ) (bitlength shift : ℕ) : Option ℚ :=
  if bitlength < 32 then none
  else
    let hi2 := hi &&& (2 ^ (bitlength - 32) - 1)
    let lo2 := lo &&& (2 ^ 32 - 1)
    let v : ℕ := (hi2 <<< 32) + lo2
    let vz : ℤ := if v >>> (bitlength - 1) ≠ 0 then (v : ℤ) - 2 ^ bitlength else (v : ℤ)
    some ((vz : ℚ) / 2 ^ shift)

/-- Encoder written from the spec's words in §4.1 (with the rounding mode
replaced by the one the code actually uses, round half to even): compute the
rounded scaled value, mask to `bit_length` bits with two's-complement wrap,
and split `high = (v >> 32) & 0xFFFFFFFF`, `low = v & 0xFFFFFFFF`, expressed
in plain division/remainder arithmetic. -/
def encodeSpecHalfEven (v : ℚ) (bitlength shift : ℕ) : ℕ × ℕ :=
  let r : ℤ := roundHalfEven (v * 2 ^ shift)
  let m : ℕ := (r % (2 ^ bitlength : ℤ)).toNat
  ((m / 2 ^ 32) % 2 ^ 32, m % 2 ^ 32)

/-- Encoder written from the spec's words in §4.1 verbatim, with the claimed
"round half away from zero" rounding mode. -/
def encodeSpecHalfAway (v : ℚ) (bitlength shift : ℕ) : ℕ × ℕ :=
  let r : ℤ := roundHalfAway (v * 2 ^ shift)
  let m : ℕ := (r % (2 ^ bitlength : ℤ)).toNat
  ((m / 2 ^ 32) % 2 ^ 32, m % 2 ^ 32)

lemma roundHalfEven_sub_abs_le (x : ℚ) : |(roundHalfEven x : ℚ) - x| ≤ 1/2 := by
  have hfl : (⌊x⌋ : ℚ) ≤ x := Int.floor_le x
  have hfu : x < (⌊x⌋ : ℚ) + 1 := Int.lt_floor_add_one x
  unfold roundHalfEven
  simp only []
  split_ifs with h1 h2 h3
  · rw [abs_sub_comm, abs_of_nonneg (by linarith)]
    linarith
  · push_cast
    rw [abs_of_nonneg (by linarith)]
    linarith
  · have hx : x - (⌊x⌋ : ℚ) = 1/2 := le_antisymm (not_lt.mp h2) (not_lt.mp h1)
    rw [abs_sub_comm, abs_of_nonneg (by linarith)]
    linarith
  · have hx : x - (⌊x⌋ : ℚ) = 1/2 := le_antisymm (not_lt.mp h2) (not_lt.mp h1)
    push_cast
    rw [abs_of_nonneg (by linarith)]
    linarith

lemma from_double_eq (v : ℚ) (bl sh : ℕ) (h64 : bl ≤ 64) :
    from_double v bl sh =
      ((roundHalfEven (v * 2 ^ sh) % (2 ^ bl : ℤ)).toNat / 2 ^ 32,
       (roundHalfEven (v * 2 ^ sh) % (2 ^ bl : ℤ)).toNat % 2 ^ 32) := by
  have hpow : (0 : ℤ) < 2 ^ bl := by positivity
  have hmlt : roundHalfEven (v * 2 ^ sh) % 2 ^ bl < 2 ^ bl :=
    Int.emod_lt_of_pos _ hpow
  have hmltn : (roundHalfEven (v * 2 ^ sh) % (2 ^ bl : ℤ)).toNat < 2 ^ bl := by
    have h0 : (0 : ℤ) ≤ roundHalfEven (v * 2 ^ sh) % 2 ^ bl :=
      Int.emod_nonneg _ (ne_of_gt hpow)
    have := (Int.toNat_of_nonneg h0) ▸ hmlt
    exact_mod_cast this
  have hdivlt : (roundHalfEven (v * 2 ^ sh) % (2 ^ bl : ℤ)).toNat / 2 ^ 32 < 2 ^ 32 := by
    have h2 : (2 : ℕ) ^ bl ≤ 2 ^ 64 := Nat.pow_le_pow_right (by norm_num) h64
    have := lt_of_lt_of_le hmltn h2
    omega
  unfold from_double
  simp only [Nat.shiftRight_eq_div_pow, Nat.and_pow_two_sub_one_eq_mod]
  rw [Nat.mod_eq_of_lt hdivlt]

lemma to_double_eq (hi lo bl sh : ℕ) (h32 : 32 ≤ bl)
    (hhi : hi < 2 ^ (bl - 32)) (hlo : lo < 2 ^ 32) :
    to_double hi lo bl sh =
      some (((if (hi * 2 ^ 32 + lo) / 2 ^ (bl - 1) ≠ 0
              then ((hi * 2 ^ 32 + lo : ℕ) : ℤ) - 2 ^ bl
              else ((hi * 2 ^ 32 + lo : ℕ) : ℤ)) : ℚ) / 2 ^ sh) := by
  unfold to_double
  rw [if_neg (by omega : ¬ bl < 32)]
  simp only [Nat.shiftLeft_eq, Nat.shiftRight_eq_div_pow, Nat.and_pow_two_sub_one_eq_mod,
    Nat.mod_eq_of_lt hhi, Nat.mod_eq_of_lt hlo]
  congr 1
  split_ifs <;> push_cast <;> ring

lemma codec_roundtrip_exact (bl sh : ℕ) (h32 : 32 ≤ bl) (h64 : bl ≤ 64) (v : ℚ)
    (hrlo : -(2 : ℤ) ^ (bl - 1) ≤ roundHalfEven (v * 2 ^ sh))
    (hrhi : roundHalfEven (v * 2 ^ sh) < 2 ^ (bl - 1)) :
    to_double (from_double v bl sh).1 (from_double v bl sh).2 bl sh
      = some ((roundHalfEven (v * 2 ^ sh) : ℚ) / 2 ^ sh) := by
  have hpow : (0 : ℤ) < 2 ^ bl := by positivity
  have hm0 : (0 : ℤ) ≤ roundHalfEven (v * 2 ^ sh) % 2 ^ bl :=
    Int.emod_nonneg _ (ne_of_gt hpow)
  have hmlt : roundHalfEven (v * 2 ^ sh) % 2 ^ bl < 2 ^ bl := Int.emod_lt_of_pos _ hpow
  have hmz : ((roundHalfEven (v * 2 ^ sh) % (2 ^ bl : ℤ)).toNat : ℤ)
      = roundHalfEven (v * 2 ^ sh) % 2 ^ bl := Int.toNat_of_nonneg hm0
  have hmltn : (roundHalfEven (v * 2 ^ sh) % (2 ^ bl : ℤ)).toNat < 2 ^ bl := by
    have := hmz ▸ hmlt
    exact_mod_cast this
  have hsplit : (2 : ℕ) ^ bl = 2 ^ (bl - 32) * 2 ^ 32 := by
    rw [← pow_add]; congr 1; omega
  have hdivlt : (roundHalfEven (v * 2 ^ sh) % (2 ^ bl : ℤ)).toNat / 2 ^ 32 < 2 ^ (bl - 32) :=
    (Nat.div_lt_iff_lt_mul (by positivity)).mpr (by rw [← hsplit]; exact hmltn)
  rw [from_double_eq v bl sh h64]
  rw [to_double_eq _ _ bl sh h32 hdivlt (Nat.mod_lt _ (by positivity))]
  rw [Nat.div_add_mod']
  have hblhalf : (2 : ℤ) ^ bl = 2 ^ (bl - 1) * 2 := by
    rw [← pow_succ]; congr 1; omega
  have hblhalfn : (2 : ℕ) ^ bl = 2 ^ (bl - 1) * 2 := by
    rw [← pow_succ]; congr 1; omega
  rcases le_or_lt 0 (roundHalfEven (v * 2 ^ sh)) with hpos | hneg
  · -- nonnegative rounded value: the masked word is the value itself
    have hemod : roundHalfEven (v * 2 ^ sh) % 2 ^ bl = roundHalfEven (v * 2 ^ sh) :=
      Int.emod_eq_of_lt hpos (by omega)
    have htn : ((roundHalfEven (v * 2 ^ sh) % (2 ^ bl : ℤ)).toNat : ℤ)
        = roundHalfEven (v * 2 ^ sh) := by rw [hmz, hemod]
    have hlt : (roundHalfEven (v * 2 ^ sh) % (2 ^ bl : ℤ)).toNat < 2 ^ (bl - 1) := by
      have : ((roundHalfEven (v * 2 ^ sh) % (2 ^ bl : ℤ)).toNat : ℤ) < 2 ^ (bl - 1) := by
        rw [htn]; exact hrhi
      exact_mod_cast this
    rw [if_neg (by simp [Nat.div_eq_of_lt hlt])]
    rw [htn]
  · -- negative rounded value: the masked word is value + 2^bl, sign bit set
    have hemod : roundHalfEven (v * 2 ^ sh) % 2 ^ bl = roundHalfEven (v * 2 ^ sh) + 2 ^ bl := by
      have h1 : (roundHalfEven (v * 2 ^ sh) + 2 ^ bl) % 2 ^ bl
          = roundHalfEven (v * 2 ^ sh) % 2 ^ bl := by
        have := Int.add_mul_emod_self_left (a := roundHalfEven (v * 2 ^ sh))
          (b := (2 : ℤ) ^ bl) (c := 1)
        simp only [mul_one] at this
        exact this
      have h2 : (roundHalfEven (v * 2 ^ sh) + 2 ^ bl) % 2 ^ bl
          = roundHalfEven (v * 2 ^ sh) + 2 ^ bl :=
        Int.emod_eq_of_lt (by omega) (by omega)
      omega
    have htn : ((roundHalfEven (v * 2 ^ sh) % (2 ^ bl : ℤ)).toNat : ℤ)
        = roundHalfEven (v * 2 ^ sh) + 2 ^ bl := by rw [hmz, hemod]
    have hge : 2 ^ (bl - 1) ≤ (roundHalfEven (v * 2 ^ sh) % (2 ^ bl : ℤ)).toNat := by
      have : (2 : ℤ) ^ (bl - 1) ≤ ((roundHalfEven (v * 2 ^ sh) % (2 ^ bl : ℤ)).toNat : ℤ) := by
        rw [htn]; omega
      exact_mod_cast this
    rw [if_pos (by
      have h1 : 1 ≤ (roundHalfEven (v * 2 ^ sh) % (2 ^ bl : ℤ)).toNat / 2 ^ (bl - 1) :=
        (Nat.one_le_div_iff (by positivity)).mpr hge
      omega)]
    congr 1
    rw [htn]
    push_cast
    ring_nf

/-! ### Pole/zero element normalization (iir.py)

`IirFloatListProperty.validate_and_normalize_element` (lines 91-108) and
`IirComplexListProperty.validate_and_normalize_element` (lines 136-161).
`poleOrZero` embeds `pole_or_zero = self.name.split('_')[1]`; since the four
slave properties are named `real_poles`, `complex_poles`, `real_zeros` and
`complex_zeros` (iir.py lines 215-226, names assigned by the metaclass at
modules.py lines 60-62), the split always yields the plural `"poles"` or
`"zeros"` — confirmed independently by `value_updated` (iir.py line 89),
whose `getattr(obj.__class__, pole_or_zero)` resolves the master properties
`poles`/`zeros`.  The second result component counts logger records
(warnings, and for the imaginary flip an info record). -/

/-- Embedding of `IirFloatListProperty.validate_and_normalize_element`:
`if val > 0 and pole_or_zero == 'pole': warn; val *= -1` then
`if val == 0: warn; val = -1`.  The comparison is against the singular
`'pole'`, which the program's actual tags (`"poles"`/`"zeros"`) never
equal. -/
def normalizeRealElement (poleOrZero : String) (val : ℚ) : ℚ × ℕ :=
  let v1 := if 0 < val ∧ poleOrZero = "pole" then -val else val
  let w1 := if 0 < val ∧ poleOrZero = "pole" then 1 else 0
  let v2 := if v1 = 0 then (-1 : ℚ) else v1
  let w2 := if v1 = 0 then 1 else 0
  (v2, w1 + w2)

/-- Embedding of `IirComplexListProperty.validate_and_normalize_element`:
`if re > 0 and pole_or_zero == 'pole': re *= -1; warn`, then
`if re == 0: re = -1; warn`, then `if im < 0: im *= -1; info`, returning
`complex(re, im)`.  As above, the `'pole'` comparison never succeeds for the
program's actual tags. -/
def normalizeComplexElement (poleOrZero : String) (val : ℚ × ℚ) : (ℚ × ℚ) × ℕ :=
  let re1 := if 0 < val.1 ∧ poleOrZero = "pole" then -val.1 else val.1
  let w1 := if 0 < val.1 ∧ poleOrZero = "pole" then 1 else 0
  let re2 := if re1 = 0 then (-1 : ℚ) else re1
  let w2 := if re1 = 0 then 1 else 0
  let im1 := if val.2 < 0 then -val.2 else val.2
  let w3 := if val.2 < 0 then 1 else 0
  ((re2, im1), w1 + w2 + w3)

/-- C1, evaluated at the failing input: the real-poles slave list carries the
tag `pole_or_zero = "poles"` (the plural, from `'real_poles'.split('_')[1]`),
so the source's `pole_or_zero == 'pole'` test is always false and a real pole
of `+50` is stored unchanged as `+50` with no warning — the claimed
forced-negation never happens.  The zero rule does fire (`0` becomes `-1`
with one warning), the complex slave has the same dead comparison (a complex
pole with positive real part survives unchanged), and the negation branch
would only run for the singular tag `"pole"`, which no list name produces. -/
theorem iir_real_pole_normalization_dead_branch :
    normalizeRealElement "poles" 50 = (50, 0) ∧
    normalizeRealElement "poles" 0 = (-1, 1) ∧
    normalizeComplexElement "poles" (50, 3) = ((50, 3), 0) ∧
    normalizeRealElement "pole" 50 = (-50, 1) ∧
    ("poles" : String) ≠ "pole" := by
  have hne : ("poles" : String) ≠ "pole" := by decide
  refine ⟨?_, ?_, ?_, ?_, hne⟩
  · norm_num [normalizeRealElement, hne]
  · norm_num [normalizeRealElement, hne]
  · norm_num [normalizeComplexElement, hne]
  · norm_num [normalizeRealElement]

/-- C2 counterexample: the claim includes `bit_length = 14`, but
`IIR._to_double` then computes `1 << (14 - 32)`, which raises
`ValueError: negative shift count` in Python — embedded as `none`.  Even for
the representable value `v = 0` no value at all is recovered, so the
round-trip property fails at `bit_length = 14`. -/
theorem iir_codec_roundtrip_bl14_counterexample :
    ¬ ∃ w : ℚ, to_double (from_double 0 14 0).1 (from_double 0 14 0).2 14 0 = some w
      ∧ |w - 0| ≤ 1 / 2 ^ 0 := by
  rintro ⟨w, hw, -⟩
  rw [show to_double (from_double 0 14 0).1 (from_double 0 14 0).2 14 0 = none from rfl] at hw
  exact Option.noConfusion hw

/-- C2 (amended: `bit_length ∈ {32, 64}` instead of `{14, 32, 64}`): for every
such bit_length, every shift in `[0, 48]` and every value representable in
`bit_length` bits with `shift` fractional bits without wraparound, decoding
the encoding recovers the value to within `2^-shift`. -/
theorem iir_codec_roundtrip (bl sh : ℕ) (v : ℚ)
    (hbl : bl = 32 ∨ bl = 64) (_hsh : sh ≤ 48)
    (hlo : -(2 : ℤ) ^ (bl - 1) ≤ roundHalfEven (v * 2 ^ sh))
    (hhi : roundHalfEven (v * 2 ^ sh) < 2 ^ (bl - 1)) :
    ∃ w : ℚ, to_double (from_double v bl sh).1 (from_double v bl sh).2 bl sh = some w
      ∧ |w - v| ≤ 1 / 2 ^ sh := by
  have h32 : 32 ≤ bl := by rcases hbl with h | h <;> omega
  have h64 : bl ≤ 64 := by rcases hbl with h | h <;> omega
  refine ⟨(roundHalfEven (v * 2 ^ sh) : ℚ) / 2 ^ sh,
    codec_roundtrip_exact bl sh h32 h64 v hlo hhi, ?_⟩
  have habs := roundHalfEven_sub_abs_le (v * 2 ^ sh)
  have hpos : (0 : ℚ) < 2 ^ sh := by positivity
  have hrw : (roundHalfEven (v * 2 ^ sh) : ℚ) / 2 ^ sh - v
      = ((roundHalfEven (v * 2 ^ sh) : ℚ) - v * 2 ^ sh) / 2 ^ sh := by
    field_simp
    ring
  rw [hrw, abs_div, abs_of_pos hpos, div_le_div_iff₀ hpos hpos]
  nlinarith [abs_nonneg ((roundHalfEven (v * 2 ^ sh) : ℚ) - v * 2 ^ sh)]

/-- Witness for C2 at `bit_length = 64`, `shift = 0`, `v = 1`. -/
theorem iir_codec_roundtrip_witness :
    ∃ w : ℚ, to_double (from_double 1 64 0).1 (from_double 1 64 0).2 64 0 = some w
      ∧ |w - 1| ≤ 1 / 2 ^ 0 :=
  iir_codec_roundtrip 64 0 1 (Or.inr rfl) (by norm_num)
    (by norm_num [roundHalfEven]) (by norm_num [roundHalfEven])

/-- C4 counterexample: the encoder uses `np.round`, which rounds half to even,
not half away from zero: at `value = 1/2`, `shift = 0`, `bit_length = 64` the
code produces the words `(0, 0)` while the claimed
round-half-away-from-zero encoder produces `(0, 1)`. -/
theorem iir_encoder_rounding_counterexample :
    from_double (1/2) 64 0 ≠ encodeSpecHalfAway (1/2) 64 0 := by
  have h1 : from_double (1/2) 64 0 = (0, 0) := by
    norm_num [from_double, roundHalfEven]
  have h2 : encodeSpecHalfAway (1/2) 64 0 = (0, 1) := by
    norm_num [encodeSpecHalfAway, roundHalfAway]
  rw [h1, h2]
  decide

/-- C4 (amended: rounding is round half to even, the behavior of `np.round`,
instead of round half away from zero): for every value, bit_length and shift
the encoder computes the rounded scaled value, masks it to `bit_length` bits
with two's-complement wrap raising no error on overflow, and returns
`high = (v >> 32) & 0xFFFFFFFF` and `low = v & 0xFFFFFFFF`. -/
theorem iir_encoder_spec (v : ℚ) (bitlength shift : ℕ) :
    from_double v bitlength shift = encodeSpecHalfEven v bitlength shift := by
  unfold from_double encodeSpecHalfEven
  simp only [Nat.shiftRight_eq_div_pow, Nat.and_pow_two_sub_one_eq_mod]

/-! ### Wire client retry loop (stemlab_client.py)

`MonitorClient.try_n_times` (lines 145-162) wraps `_reads` (lines 100-116).
One socket transaction is summarized by an `Exchange`: the server either
causes a socket error, answers with a mismatched echo header (desync), or
answers cleanly with a word payload. -/

/-- Outcome of one socket transaction as seen by `_reads`. -/
inductive Exchange where
  | sockErr : Exchange
  | desync : List ℕ → Exchange
  | clean : List ℕ → Exchange
deriving DecidableEq

/-- Result of one call to `MonitorClient._reads`. -/
inductive CallResult where
  | ok : List ℕ → CallResult
  | retNone : CallResult
  | sockRaised : CallResult
  | typeRaised : CallResult
deriving DecidableEq

/-- Embedding of one call to `MonitorClient._reads` (stemlab_client.py
lines 100-116).  `arg` is the `length` argument as threaded by
`try_n_times`; when it is `None` (a previous attempt's desync return value),
the very first line `if length > 65535:` raises `TypeError` in Python 3,
which `try_n_times` does not catch.  On a desync (`data[:8] != header`) the
buffer is drained (`emptybuffer`) and `None` is returned; on a socket
timeout/error during the transaction, the exception propagates to
`try_n_times`, which catches it. -/
def readsOnce (arg : Option ℕ) (ex : Exchange) : CallResult :=
  match arg with
  | none => CallResult.typeRaised
  | some _ =>
    match ex with
    | Exchange.sockErr => CallResult.sockRaised
    | Exchange.desync _ => CallResult.retNone
    | Exchange.clean ws => CallResult.ok ws

/-- Overall outcome of `try_n_times`. -/
inductive OpOutcome where
  | success : List ℕ → OpOutcome
  | noValue : OpOutcome
  | raised : OpOutcome
deriving DecidableEq

/-- Embedding of `MonitorClient.try_n_times` (stemlab_client.py lines
145-162), specialized to `function = _reads`.  `script` lists the outcomes of
successive socket transactions, `fuel` is the attempt budget `n` (5 by
default).  The load-bearing source detail is `value = function(addr, value)`:
the same variable receives the call's result and supplies the next call's
argument, so a desync (which returns `None`) replaces the original argument,
while a caught socket error leaves it unchanged; after the loop the function
implicitly returns `None`. -/
def try_n_times (script : List Exchange) (arg : Option ℕ) : ℕ → OpOutcome
  | 0 => OpOutcome.noValue
  | fuel + 1 =>
    match script with
    | [] => OpOutcome.noValue
    | ex :: rest =>
      match readsOnce arg ex with
      | CallResult.ok ws => OpOutcome.success ws
      | CallResult.retNone => try_n_times rest none fuel
      | CallResult.sockRaised => try_n_times rest arg fuel
      | CallResult.typeRaised => OpOutcome.raised

/-- C3, evaluated at the failing input: a read whose first exchange suffers a
header-echo mismatch followed by clean exchanges does NOT succeed — the
desync return value `None` overwrites the `length` argument and the second
attempt raises `TypeError` out of `try_n_times`.  For contrast, a clean first
exchange succeeds, and a socket-level error (which leaves the argument
intact) is retried successfully within the same budget. -/
theorem client_desync_then_clean_raises :
    try_n_times [Exchange.desync [9], Exchange.clean [1, 2, 3, 4],
        Exchange.clean [1, 2, 3, 4], Exchange.clean [1, 2, 3, 4],
        Exchange.clean [1, 2, 3, 4]] (some 4) 5 = OpOutcome.raised ∧
    try_n_times [Exchange.clean [1, 2, 3, 4]] (some 4) 5
      = OpOutcome.success [1, 2, 3, 4] ∧
    try_n_times [Exchange.sockErr, Exchange.clean [1, 2, 3, 4]] (some 4) 5
      = OpOutcome.success [1, 2, 3, 4] := by
  refine ⟨rfl, rfl, rfl⟩

/-! ### Master/slave pole-zero list synchronization (iir.py)

`IirListProperty.set_value` / `get_value` (lines 43-65).  The descriptor
machinery (`attributes.py`) is not part of src/; the `call_setup`
re-derivation rule is modelled from the spec (§4.3: a set of a `call_setup`
attribute schedules the module's setup re-derivation unless a setup is
already in progress; §4.5: re-derivation fires at most once, not once per
slave). -/

structure IirPZState where
  realList : List ℚ
  complexList : List (ℚ × ℚ)
  setupOngoing : Bool
  derivations : ℕ
deriving DecidableEq

/-- Modelled from the spec: writing a slave list normalizes each element
(source: `validate_and_normalize` maps `validate_and_normalize_element`,
iir.py lines 67-73) and triggers one setup re-derivation unless a setup is
already ongoing (spec §4.3/§4.5; the slave's update is forwarded to the
`call_setup=True` master via `value_updated`, iir.py lines 83-89). -/
def setRealSlave (poleOrZero : String) (s : IirPZState) (xs : List ℚ) : IirPZState :=
  { s with
    realList := xs.map (fun x => (normalizeRealElement poleOrZero x).1),
    derivations := if s.setupOngoing then s.derivations else s.derivations + 1 }

/-- Modelled from the spec: complex-slave analogue of `setRealSlave`. -/
def setComplexSlave (poleOrZero : String) (s : IirPZState) (xs : List (ℚ × ℚ)) : IirPZState :=
  { s with
    complexList := xs.map (fun x => (normalizeComplexElement poleOrZero x).1),
    derivations := if s.setupOngoing then s.derivations else s.derivations + 1 }

/-- Embedding of `IirListProperty.set_value` (iir.py lines 43-59): partition
the input by `np.imag(v) == 0` (real parts to the real slave, the rest to the
complex slave), then inside `with obj.do_setup:` write the complex slave and
then the real slave; `DoSetup.__exit__` resets `_setup_ongoing` to `False`;
finally the master's own `call_setup=True` fires one re-derivation
(modelled from the spec, see above).  `poleOrZero` is the master property's
name, `"poles"` or `"zeros"` in the program, passed down to the slaves'
element normalization (their names prefix it with `real_`/`complex_`). -/
def setMaster (poleOrZero : String) (s : IirPZState) (input : List (ℚ × ℚ)) : IirPZState :=
  let realPart := (input.filter (fun v => decide (v.2 = 0))).map Prod.fst
  let complexPart := input.filter (fun v => !decide (v.2 = 0))
  let s1 := { s with setupOngoing := true }
  let s2 := setComplexSlave poleOrZero s1 complexPart
  let s3 := setRealSlave poleOrZero s2 realPart
  let s4 := { s3 with setupOngoing := false }
  { s4 with derivations := s4.derivations + 1 }

/-- Embedding of `IirListProperty.get_value` (iir.py lines 61-65): the
complex slave first, then the real slave cast to complex values. -/
def getMaster (s : IirPZState) : List (ℚ × ℚ) :=
  s.complexList ++ s.realList.map (fun r => (r, 0))

/-- The normalization an input element undergoes, according to the partition
it falls into. -/
def normalizeMasterElement (poleOrZero : String) (v : ℚ × ℚ) : ℚ × ℚ :=
  if v.2 = 0 then ((normalizeRealElement poleOrZero v.1).1, 0)
  else (normalizeComplexElement poleOrZero v).1

lemma filter_map_normalizeMasterElement_real (poleOrZero : String) (l : List (ℚ × ℚ)) :
    (l.filter (fun v => decide (v.2 = 0))).map (normalizeMasterElement poleOrZero)
      = (l.filter (fun v => decide (v.2 = 0))).map
          (fun v => ((normalizeRealElement poleOrZero v.1).1, 0)) := by
  apply List.map_congr_left
  intro a ha
  have := List.of_mem_filter ha
  simp only [decide_eq_true_eq] at this
  simp [normalizeMasterElement, this]

lemma filter_map_normalizeMasterElement_complex (poleOrZero : String) (l : List (ℚ × ℚ)) :
    (l.filter (fun v => !decide (v.2 = 0))).map (normalizeMasterElement poleOrZero)
      = (l.filter (fun v => !decide (v.2 = 0))).map
          (fun v => (normalizeComplexElement poleOrZero v).1) := by
  apply List.map_congr_left
  intro a ha
  have := List.of_mem_filter ha
  simp only [Bool.not_eq_true', decide_eq_false_iff_not] at this
  simp [normalizeMasterElement, this]

/-- C5: setting the master poles (or zeros) list partitions the elements by
`imag == 0` (reals to the real slave, the others to the complex slave, each
normalized by its slave's rule), fires the setup re-derivation exactly once,
and the getter returns the complex-slave elements first followed by the
real-slave elements cast to complex — a list that is multiset-equal
(a permutation) of the normalized input. -/
theorem iir_master_slave_sync (poleOrZero : String) (s : IirPZState) (input : List (ℚ × ℚ)) :
    (setMaster poleOrZero s input).complexList
        = (input.filter (fun v => !decide (v.2 = 0))).map
            (fun v => (normalizeComplexElement poleOrZero v).1) ∧
    (setMaster poleOrZero s input).realList
        = (input.filter (fun v => decide (v.2 = 0))).map
            (fun v => (normalizeRealElement poleOrZero v.1).1) ∧
    (getMaster (setMaster poleOrZero s input)).Perm
        (input.map (normalizeMasterElement poleOrZero)) ∧
    (setMaster poleOrZero s input).derivations = s.derivations + 1 := by
  refine ⟨?_, ?_, ?_, ?_⟩
  · simp [setMaster, setRealSlave, setComplexSlave]
  · simp [setMaster, setRealSlave, setComplexSlave, List.map_map]
  · have hperm := List.filter_append_perm (fun v => decide (v.2 = 0)) input
    have hperm2 := hperm.map (normalizeMasterElement poleOrZero)
    rw [List.map_append] at hperm2
    rw [filter_map_normalizeMasterElement_real,
      filter_map_normalizeMasterElement_complex] at hperm2
    have hcomm : (getMaster (setMaster poleOrZero s input)).Perm
        ((input.filter (fun v => decide (v.2 = 0))).map
            (fun v => ((normalizeRealElement poleOrZero v.1).1, 0))
          ++ (input.filter (fun v => !decide (v.2 = 0))).map
            (fun v => (normalizeComplexElement poleOrZero v).1)) := by
      have hg : getMaster (setMaster poleOrZero s input)
          = (input.filter (fun v => !decide (v.2 = 0))).map
              (fun v => (normalizeComplexElement poleOrZero v).1)
            ++ (input.filter (fun v => decide (v.2 = 0))).map
              (fun v => ((normalizeRealElement poleOrZero v.1).1, 0)) := by
        simp [getMaster, setMaster, setRealSlave, setComplexSlave, List.map_map]
      rw [hg]
      exact List.perm_append_comm
    exact hcomm.trans hperm2
  · simp [setMaster, setRealSlave, setComplexSlave]

/-! ### Selection arbitration across the four pole/zero containers (iir.py)

`IirFloatListProperty.list_changed` (lines 110-128), operation `'select'`.
The per-container `selected` flag storage lives in `attributes.py`, which is
not part of src/; that a select records `(container, index)` on the selected
container itself is modelled from the spec (§4.5 "records (container, index)
as the current selection"). -/

inductive PZContainer where
  | realPoles : PZContainer
  | complexPoles : PZContainer
  | realZeros : PZContainer
  | complexZeros : PZContainer
deriving DecidableEq

structure SelectionState where
  realPolesSel : Option ℕ
  complexPolesSel : Option ℕ
  realZerosSel : Option ℕ
  complexZerosSel : Option ℕ
  selectedContainer : Option PZContainer
  selectedIndex : Option ℕ
  plotEmits : ℕ
deriving DecidableEq

def selFlag (s : SelectionState) : PZContainer → Option ℕ
  | PZContainer.realPoles => s.realPolesSel
  | PZContainer.complexPoles => s.complexPolesSel
  | PZContainer.realZeros => s.realZerosSel
  | PZContainer.complexZeros => s.complexZerosSel

/-- Embedding of `list_changed(module, 'select', index)` on container `c`
(iir.py lines 110-128): under the `_selecting` reentrancy guard it first sets
`selected = None` on each of the other three containers, records
`(_selected_pole_or_zero, _selected_index) = (c, index)`, and finally emits a
single `update_plot` notification.  The selected flag of `c` itself holds
`index` (modelled from the spec, see above). -/
def select (s : SelectionState) (c : PZContainer) (i : ℕ) : SelectionState :=
  { realPolesSel := if c = PZContainer.realPoles then some i else none,
    complexPolesSel := if c = PZContainer.complexPoles then some i else none,
    realZerosSel := if c = PZContainer.realZeros then some i else none,
    complexZerosSel := if c = PZContainer.complexZeros then some i else none,
    selectedContainer := some c,
    selectedIndex := some i,
    plotEmits := s.plotEmits + 1 }

def selectedCount (s : SelectionState) : ℕ :=
  (if s.realPolesSel.isSome then 1 else 0) + (if s.complexPolesSel.isSome then 1 else 0)
    + (if s.realZerosSel.isSome then 1 else 0) + (if s.complexZerosSel.isSome then 1 else 0)

/-- C6: selecting an element in one of the four containers clears the
selection flags of the other three first, so at most one element across all
four containers is selected afterwards; the selection `(container, index)` is
recorded and exactly one plot/view-changed notification is emitted. -/
theorem iir_selection_exclusive (s : SelectionState) (c : PZContainer) (i : ℕ) :
    (∀ c', c' ≠ c → selFlag (select s c i) c' = none) ∧
    selFlag (select s c i) c = some i ∧
    selectedCount (select s c i) = 1 ∧
    (select s c i).selectedContainer = some c ∧
    (select s c i).selectedIndex = some i ∧
    (select s c i).plotEmits = s.plotEmits + 1 := by
  refine ⟨fun c' hne => ?_, ?_, ?_, rfl, rfl, rfl⟩
  · cases c <;> cases c' <;> simp_all [select, selFlag]
  · cases c <;> simp [select, selFlag]
  · cases c <;> simp [select, selectedCount]

/-- Witness for C6: selecting index 2 in `complex_zeros` on a state where
every container had a selection clears `real_poles`, `complex_poles` and
`real_zeros`, keeps exactly one selected element, and bumps the plot
notification count by one. -/
theorem iir_selection_exclusive_witness :
    selFlag (select ⟨some 0, some 1, some 2, some 3, some PZContainer.realPoles, some 0, 7⟩
        PZContainer.complexZeros 2) PZContainer.realPoles = none ∧
    selFlag (select ⟨some 0, some 1, some 2, some 3, some PZContainer.realPoles, some 0, 7⟩
        PZContainer.complexZeros 2) PZContainer.complexZeros = some 2 ∧
    selectedCount (select ⟨some 0, some 1, some 2, some 3, some PZContainer.realPoles, some 0, 7⟩
        PZContainer.complexZeros 2) = 1 ∧
    (select ⟨some 0, some 1, some 2, some 3, some PZContainer.realPoles, some 0, 7⟩
        PZContainer.complexZeros 2).plotEmits = 8 :=
  ⟨(iir_selection_exclusive ⟨some 0, some 1, some 2, some 3, some PZContainer.realPoles,
      some 0, 7⟩ PZContainer.complexZeros 2).1 PZContainer.realPoles (by decide),
   (iir_selection_exclusive ⟨some 0, some 1, some 2, some 3, some PZContainer.realPoles,
      some 0, 7⟩ PZContainer.complexZeros 2).2.1,
   (iir_selection_exclusive ⟨some 0, some 1, some 2, some 3, some PZContainer.realPoles,
      some 0, 7⟩ PZContainer.complexZeros 2).2.2.1,
   (iir_selection_exclusive ⟨some 0, some 1, some 2, some 3, some PZContainer.realPoles,
      some 0, 7⟩ PZContainer.complexZeros 2).2.2.2.2.2⟩

/-! ### Module ownership and setup lifecycle (modules.py)

The `Module.owner` setter (lines 361-385), the `DoSetup` context manager
(lines 136-165) and the metaclass-generated `setup` (lines 87-103).
`_load_setup_attributes` is not defined under src/; Modelled from the spec
(§4.4): release reloads all setup attributes from the last
externally-persisted state. -/

inductive OwnEvent where
  | hook : Option String → Option String → OwnEvent
  | reloadSetupAttributes : OwnEvent
  | emitOwnershipChanged : OwnEvent
deriving DecidableEq

structure ModState where
  owner : Option String
  autosaveActive : Bool
  attrs : List (String × ℚ)
  persisted : List (String × ℚ)
  events : List OwnEvent
deriving DecidableEq

/-- Embedding of the `Module.owner` setter (modules.py lines 361-385):
`old = self.owner; self._owner = val`; autosave is enabled iff the new owner
is `None`; the `_ownership_changed(old, val)` hook runs; when `val is None`,
`_load_setup_attributes()` restores the setup attributes from the persisted
state (Modelled from the spec: the method itself is not under src/); finally
`change_ownership` is emitted. -/
def setOwner (s : ModState) (val : Option String) : ModState :=
  let old := s.owner
  let s1 : ModState :=
    { s with
      owner := val,
      autosaveActive := val.isNone,
      events := s.events ++ [OwnEvent.hook old val] }
  let s2 : ModState :=
    if val.isNone then
      { s1 with
        attrs := s1.persisted,
        events := s1.events ++ [OwnEvent.reloadSetupAttributes] }
    else s1
  { s2 with events := s2.events ++ [OwnEvent.emitOwnershipChanged] }

/-- Modelled from the spec (§4.4): setting a setup attribute stores the value
in the module's store; it is persisted externally only while autosave is
active ("disable autosave — attribute changes while owned are not
persisted"). -/
def setAttr (s : ModState) (name : String) (v : ℚ) : ModState :=
  let newAttrs := (name, v) :: s.attrs.filter (fun p => !decide (p.1 = name))
  { s with
    attrs := newAttrs,
    persisted := if s.autosaveActive then newAttrs else s.persisted }

/-- C7: releasing a module owned by `x` re-enables autosave, invokes the
ownership-changed hook with `(old = x, new = None)`, then reloads all setup
attributes from the last persisted state — so for any module, mutating a
setup attribute between acquisition by `x` and release leaves the attribute
at its pre-acquisition persisted value — and then emits the
ownership-changed notification. -/
theorem module_release_restores (s : ModState) (x : String) (h : s.owner = some x) :
    (setOwner s none).autosaveActive = true ∧
    (setOwner s none).owner = none ∧
    (setOwner s none).attrs = s.persisted ∧
    (setOwner s none).events
      = s.events ++ [OwnEvent.hook (some x) none, OwnEvent.reloadSetupAttributes,
                     OwnEvent.emitOwnershipChanged] ∧
    (∀ s0 : ModState, ∀ name : String, ∀ v : ℚ,
      (setOwner (setAttr (setOwner s0 (some x)) name v) none).attrs = s0.persisted) := by
  refine ⟨rfl, rfl, rfl, ?_, fun s0 name v => ?_⟩
  · simp [setOwner, h]
  · simp [setOwner, setAttr]

/-- Witness for C7 at a concrete owned module: owner `"gui"`, live attribute
value `5`, persisted value `1`; release restores the persisted value, and the
acquire-mutate-release scenario returns the persisted state. -/
theorem module_release_restores_witness :
    (setOwner ⟨some "gui", false, [("gain", 5)], [("gain", 1)], []⟩ none).autosaveActive
      = true ∧
    (setOwner ⟨some "gui", false, [("gain", 5)], [("gain", 1)], []⟩ none).attrs
      = [("gain", 1)] ∧
    (setOwner ⟨some "gui", false, [("gain", 5)], [("gain", 1)], []⟩ none).events
      = [OwnEvent.hook (some "gui") none, OwnEvent.reloadSetupAttributes,
         OwnEvent.emitOwnershipChanged] ∧
    (setOwner (setAttr (setOwner ⟨none, true, [("gain", 1)], [("gain", 1)], []⟩
        (some "gui")) "gain" 7) none).attrs = [("gain", 1)] :=
  ⟨(module_release_restores ⟨some "gui", false, [("gain", 5)], [("gain", 1)], []⟩
      "gui" rfl).1,
   (module_release_restores ⟨some "gui", false, [("gain", 5)], [("gain", 1)], []⟩
      "gui" rfl).2.2.1,
   (module_release_restores ⟨some "gui", false, [("gain", 5)], [("gain", 1)], []⟩
      "gui" rfl).2.2.2.1,
   (module_release_restores ⟨some "gui", false, [("gain", 5)], [("gain", 1)], []⟩
      "gui" rfl).2.2.2.2 ⟨none, true, [("gain", 1)], [("gain", 1)], []⟩ "gain" 7⟩

/-- Hook calls recorded in a module's event list, in order. -/
def hookEvents (s : ModState) : List (Option String × Option String) :=
  s.events.filterMap (fun e =>
    match e with
    | OwnEvent.hook a b => some (a, b)
    | _ => none)

/-- C8 counterexample: a direct reassignment `OWNED("a") → OWNED("b")` makes
a single ownership-changed hook call with `(old = some "a", new = some "b")`,
whereas release-then-acquire semantics for the hook calls would produce the
two calls `(some "a", none)` then `(none, some "b")` — as an actual release
followed by an acquire does. -/
theorem module_reassign_counterexample :
    hookEvents (setOwner ⟨some "a", false, [], [], []⟩ (some "b"))
      = [(some "a", some "b")] ∧
    hookEvents (setOwner (setOwner ⟨some "a", false, [], [], []⟩ none) (some "b"))
      = [(some "a", none), (none, some "b")] ∧
    hookEvents (setOwner ⟨some "a", false, [], [], []⟩ (some "b"))
      ≠ [(some "a", none), (none, some "b")] := by
  refine ⟨rfl, rfl, ?_⟩
  decide

/-- C8 (amended: the hook is invoked once with `(old = x, new = y)`, a single
call conveying both the release and the acquisition, rather than separate
release and acquire hook calls): direct reassignment `OWNED(x) → OWNED(y)` is
permitted, performs no setup-attribute reload, and autosave stays disabled
throughout. -/
theorem module_reassign (s : ModState) (x y : String) (h : s.owner = some x) :
    (setOwner s (some y)).owner = some y ∧
    (setOwner s (some y)).autosaveActive = false ∧
    (setOwner s (some y)).attrs = s.attrs ∧
    (setOwner s (some y)).events
      = s.events ++ [OwnEvent.hook (some x) (some y), OwnEvent.emitOwnershipChanged] := by
  refine ⟨rfl, rfl, rfl, ?_⟩
  simp [setOwner, h]

/-- Witness for C8 at a concrete owned module. -/
theorem module_reassign_witness :
    (setOwner ⟨some "a", false, [("gain", 5)], [("gain", 1)], []⟩ (some "b")).owner
      = some "b" ∧
    (setOwner ⟨some "a", false, [("gain", 5)], [("gain", 1)], []⟩ (some "b")).autosaveActive
      = false ∧
    (setOwner ⟨some "a", false, [("gain", 5)], [("gain", 1)], []⟩ (some "b")).attrs
      = [("gain", 5)] ∧
    (setOwner ⟨some "a", false, [("gain", 5)], [("gain", 1)], []⟩ (some "b")).events
      = [OwnEvent.hook (some "a") (some "b"), OwnEvent.emitOwnershipChanged] :=
  ⟨(module_reassign ⟨some "a", false, [("gain", 5)], [("gain", 1)], []⟩ "a" "b" rfl).1,
   (module_reassign ⟨some "a", false, [("gain", 5)], [("gain", 1)], []⟩ "a" "b" rfl).2.1,
   (module_reassign ⟨some "a", false, [("gain", 5)], [("gain", 1)], []⟩ "a" "b" rfl).2.2.1,
   (module_reassign ⟨some "a", false, [("gain", 5)], [("gain", 1)], []⟩ "a" "b" rfl).2.2.2⟩

/-! ### The `do_setup` guard (modules.py, `DoSetup`) -/

structure SetupState where
  setupOngoing : Bool
  warnLogs : ℕ
deriving DecidableEq

/-- Embedding of the `DoSetup` context manager (modules.py lines 136-165)
around a guarded block `body`: `__enter__` sets `_setup_ongoing = True`; the
block runs on that state and either finishes normally (`none`) or raises an
exception (`some e`); `__exit__` unconditionally sets `_setup_ongoing =
False`, logs a warning when an exception was raised, and — returning `None`
— lets the exception propagate unchanged. -/
def withDoSetup (body : SetupState → SetupState × Option String) (s : SetupState) :
    SetupState × Option String :=
  let entered : SetupState := { s with setupOngoing := true }
  let step := body entered
  ({ step.1 with
      setupOngoing := false,
      warnLogs := if step.2.isSome then step.1.warnLogs + 1 else step.1.warnLogs },
   step.2)

/-- C9: entering the `do_setup` guard sets the setup-ongoing flag (the
guarded block runs on a state whose flag is true); on every exit path —
normal or raising — the flag is false afterwards; a raised exception is
logged as a warning and propagated unchanged to the caller, never
swallowed. -/
theorem do_setup_guard (body : SetupState → SetupState × Option String) (s : SetupState) :
    (SetupState.mk true s.warnLogs).setupOngoing = true ∧
    (withDoSetup body s).1.setupOngoing = false ∧
    (withDoSetup body s).2 = (body { s with setupOngoing := true }).2 ∧
    (∀ e : String, (body { s with setupOngoing := true }).2 = some e →
      (withDoSetup body s).1.warnLogs
        = (body { s with setupOngoing := true }).1.warnLogs + 1) := by
  refine ⟨rfl, rfl, rfl, fun e he => ?_⟩
  simp [withDoSetup, he]

/-- Witness for C9 with a concrete guarded block that mutates state and then
raises: the flag is false afterwards, the exception propagates, and exactly
one warning is logged. -/
theorem do_setup_guard_witness :
    (withDoSetup (fun st => ({ st with warnLogs := st.warnLogs }, some "boom"))
        ⟨false, 0⟩).1.setupOngoing = false ∧
    (withDoSetup (fun st => ({ st with warnLogs := st.warnLogs }, some "boom"))
        ⟨false, 0⟩).2 = some "boom" ∧
    (withDoSetup (fun st => ({ st with warnLogs := st.warnLogs }, some "boom"))
        ⟨false, 0⟩).1.warnLogs = 1 :=
  ⟨(do_setup_guard (fun st => ({ st with warnLogs := st.warnLogs }, some "boom"))
      ⟨false, 0⟩).2.1,
   (do_setup_guard (fun st => ({ st with warnLogs := st.warnLogs }, some "boom"))
      ⟨false, 0⟩).2.2.1,
   (do_setup_guard (fun st => ({ st with warnLogs := st.warnLogs }, some "boom"))
      ⟨false, 0⟩).2.2.2 "boom" rfl⟩

/-! ### Coefficient programming (iir.py, `IIR.coefficients` setter) -/

/-- Embedding of the per-stage word packing of the `IIR.coefficients` setter
loop (iir.py lines 334-354) with `_invert = True`: columns 0 and 1 map to
word pairs `k = 0, 1`; columns 4 and 5 are negated and map to `k = 2, 3`;
columns 2 and 3 are skipped (only warned about); each pair is stored as
`data[i*8 + k*2] = lo`, `data[i*8 + k*2 + 1] = hi`. -/
def stageWords (bitlength shift : ℕ) (row : List ℚ) : List ℕ :=
  let word := fun (j : ℕ) (neg : Bool) =>
    from_double (if neg then -(row.getD j 0) else row.getD j 0) bitlength shift
  [(word 0 false).2, (word 0 false).1,
   (word 1 false).2, (word 1 false).1,
   (word 4 true).2, (word 4 true).1,
   (word 5 true).2, (word 5 true).1]

/-- Embedding of the `IIR.coefficients` setter (iir.py lines 319-357): if the
number of stage rows exceeds `stages` (`_IIRSTAGES`), an exception is raised
before anything else happens; otherwise the full `stages * 8`-word payload
(`data = np.zeros(stages * 8)` filled stage by stage) is built and then the
single write transaction `self._writes(0x8000, data)` is performed. -/
def setCoefficients (stages bitlength shift : ℕ) (v : List (List ℚ)) :
    Except String (ℕ × List ℕ) :=
  if v.length > stages then
    Except.error "Error: Filter contains too many sections to be implemented"
  else
    Except.ok (0x8000,
      (v.map (stageWords bitlength shift)).flatten
        ++ List.replicate ((stages - v.length) * 8) 0)

/-- Write transactions performed by a coefficient assignment. -/
def writesOf : Except String (ℕ × List ℕ) → List (ℕ × List ℕ)
  | Except.error _ => []
  | Except.ok tx => [tx]

lemma stage_payload_length (bitlength shift : ℕ) (w : List (List ℚ)) :
    ((w.map (stageWords bitlength shift)).flatten).length = 8 * w.length := by
  induction w with
  | nil => simp
  | cons a t ih =>
    simp only [List.map_cons, List.flatten_cons, List.length_append, ih,
      List.length_cons, stageWords, List.length_nil]
    ring

/-- C10: assigning a coefficient matrix with more stage rows than the
hardware supports raises an exception synchronously and performs no register
write; for any matrix within capacity, exactly one write transaction at
address `0x8000` carrying the full `stages * 8`-word payload is performed,
so no partial write can occur. -/
theorem iir_coefficients_capacity (stages bitlength shift : ℕ) (v : List (List ℚ))
    (h : v.length > stages) :
    setCoefficients stages bitlength shift v
      = Except.error "Error: Filter contains too many sections to be implemented" ∧
    writesOf (setCoefficients stages bitlength shift v) = [] ∧
    (∀ w : List (List ℚ), w.length ≤ stages → ∃ data : List ℕ,
      setCoefficients stages bitlength shift w = Except.ok (0x8000, data) ∧
      data.length = stages * 8) := by
  refine ⟨?_, ?_, fun w hw => ?_⟩
  · simp [setCoefficients, h]
  · simp [setCoefficients, h, writesOf]
  · refine ⟨(w.map (stageWords bitlength shift)).flatten
      ++ List.replicate ((stages - w.length) * 8) 0, ?_, ?_⟩
    · simp [setCoefficients, Nat.not_lt.mpr hw]
    · rw [List.length_append, stage_payload_length, List.length_replicate]
      omega

/-- Witness for C10: programming five stage rows into four hardware stages
fails with the exception and produces no write; programming zero rows
produces one full 32-word transaction. -/
theorem iir_coefficients_capacity_witness :
    setCoefficients 4 46 30 [[], [], [], [], []]
      = Except.error "Error: Filter contains too many sections to be implemented" ∧
    writesOf (setCoefficients 4 46 30 [[], [], [], [], []]) = [] ∧
    (∃ data : List ℕ, setCoefficients 4 46 30 []
      = Except.ok (0x8000, data) ∧ data.length = 4 * 8) :=
  ⟨(iir_coefficients_capacity 4 46 30 [[], [], [], [], []] (by norm_num)).1,
   (iir_coefficients_capacity 4 46 30 [[], [], [], [], []] (by norm_num)).2.1,
   (iir_coefficients_capacity 4 46 30 [[], [], [], [], []] (by norm_num)).2.2 []
     (by norm_num)⟩

end StemLab
